import Mathlib

/-
Verification development for the rf2k-trainer tuning-orchestration core.

Shallow embedding conventions:
  - Python integers are modelled on ℤ.  For a positive divisor, the Python
    floor division operator (double slash) and modulo agree with the Lean
    operators / and % on ℤ (Euclidean division), so those are used directly.
  - Python floats are modelled by exact rationals (ℚ); int(round(x)) is
    modelled by round-half-to-even on ℚ.
  - Python strings are modelled by List Char so that all string operations
    compute by kernel reduction.
  - Code that raises is modelled with Except; code that returns None with
    Option.
-/

namespace Py

/-- Round-half-to-even on an exact rational, the semantics of the Python
builtin round() as used by int(round(x)) in the source. -/
def pyRound (q : ℚ) : ℤ :=
  let f := ⌊q⌋
  let r := q - f
  if r < 1/2 then f
  else if 1/2 < r then f + 1
  else if f % 2 = 0 then f else f + 1

/-- Exact value of math.ceil(a / b) for integers with b > 0: the identity
ceil(a/b) = (a + b - 1) / b, where / on ℤ is Euclidean division (equal to
floor division for a positive divisor). -/
def mathCeilDiv (a b : ℤ) : ℤ := (a + b - 1) / b

end Py

namespace BandMath

open Py

/-- The collection loop of calculate_tuning_frequencies
(src/band_math.py lines 35-38):

    c = c_right
    while (c - half) >= bs and (c + half) <= be:
        points_hz.append(c)
        c += step

written with an explicit iteration budget so that it is structural and
computes by kernel reduction.  Each iteration advances c by step (which the
caller has checked to be at least 1) while the guard forces c + half <= be,
so (be - half - c + 1).toNat bounds the number of iterations and the budget
chosen in collect_centers is never exhausted before the guard fails. -/
def collect_go (bs be half step : ℤ) : ℕ → ℤ → List ℤ
  | 0, _ => []
  | fuel + 1, c =>
      if bs ≤ c - half ∧ c + half ≤ be then
        c :: collect_go bs be half step fuel (c + step)
      else []

/-- The collection loop started at c with a sufficient iteration budget. -/
def collect_centers (bs be half step c : ℤ) : List ℤ :=
  collect_go bs be half step (be - half - c + 1).toNat c

/-- Core of calculate_tuning_frequencies (src/band_math.py lines 25-61)
after the kHz inputs have been converted to integer Hz: bs and be are the
band edges, step the segment size and c0 the grid reference center, all in
Hz.  Returns the list points_hz of the source (before the final division
by 1000.0). -/
def tuning_points_hz (bs be step c0 : ℤ) : List ℤ :=
  let half := step / 2
  let k_right := mathCeilDiv (bs + half - c0) step
  let c_right := c0 + k_right * step
  let left_edge_right := c_right - half
  let points_hz := collect_centers bs be half step c_right
  if points_hz = [] then
    let L := max bs (min left_edge_right be)
    if L ≤ bs ∨ be ≤ L then [(bs + be) / 2]
    else [bs + (L - bs) / 2, be - (be - L) / 2]
  else
    let first_left := points_hz.headD 0 - half
    let pts₁ := if bs < first_left then (bs + (first_left - bs) / 2) :: points_hz else points_hz
    let last_right := points_hz.getLastD 0 + half
    if last_right < be then pts₁ ++ [be - (be - last_right) / 2] else pts₁

/-- calculate_tuning_frequencies (src/band_math.py lines 6-61): kHz inputs
as exact rationals, result in kHz; raise ValueError is modelled as .error.
The degenerate-band check precedes the rounding to Hz and the segment-size
validation, exactly as in the source. -/
def calculate_tuning_frequencies (band_start_khz band_end_khz segment_size_khz first_segment_center_khz : ℚ) :
    Except String (List ℚ) :=
  if band_end_khz ≤ band_start_khz then .ok []
  else
    let bs := pyRound (band_start_khz * 1000)
    let be := pyRound (band_end_khz * 1000)
    let step := pyRound (segment_size_khz * 1000)
    if step ≤ 0 then .error "segment_size_khz must be > 0"
    else
      let c0 := pyRound (first_segment_center_khz * 1000)
      .ok ((tuning_points_hz bs be step c0).map (fun p => (p : ℚ) / 1000))

/-- No grid center c0 + k * step has its full segment inside the band. -/
def no_full_segment_fits (bs be step c0 : ℤ) : Prop :=
  ∀ k : ℤ, ¬(bs ≤ c0 + k * step - step / 2 ∧ c0 + k * step + step / 2 ≤ be)

/-- The clamped left edge of the nearest would-be segment, the split point L
of the no-full-segment branch (src/band_math.py line 41). -/
def clamped_edge (bs be step c0 : ℤ) : ℤ :=
  max bs (min (c0 + mathCeilDiv (bs + step / 2 - c0) step * step - step / 2) be)

end BandMath

namespace BandMath

open Py

lemma collect_go_head (bs be half step : ℤ) :
    ∀ (fuel : ℕ) (c x : ℤ) (t : List ℤ),
      collect_go bs be half step fuel c = x :: t → x = c := by
  intro fuel c x t h
  cases fuel with
  | zero => simp [collect_go] at h
  | succ m =>
      simp only [collect_go] at h
      split at h
      · exact (List.cons.injEq _ _ _ _ ▸ h).1.symm
      · simp at h

lemma collect_go_chain (bs be half step : ℤ) :
    ∀ (fuel : ℕ) (c : ℤ),
      List.Chain' (fun a b => b = a + step) (collect_go bs be half step fuel c) := by
  intro fuel
  induction fuel with
  | zero => intro c; simp [collect_go]
  | succ m ih =>
      intro c
      simp only [collect_go]
      split
      · rcases h : collect_go bs be half step m (c + step) with _ | ⟨x, t⟩
        · simp
        · have hx : x = c + step := collect_go_head bs be half step m (c + step) x t h
          exact List.chain'_cons.mpr ⟨hx, h ▸ ih (c + step)⟩
      · simp

lemma collect_go_mem (bs be half step : ℤ) :
    ∀ (fuel : ℕ) (c x : ℤ),
      x ∈ collect_go bs be half step fuel c → bs ≤ x - half ∧ x + half ≤ be := by
  intro fuel
  induction fuel with
  | zero => intro c x h; simp [collect_go] at h
  | succ m ih =>
      intro c x h
      simp only [collect_go] at h
      split at h
      · next hg =>
          rcases List.mem_cons.mp h with rfl | hmem
          · exact ⟨hg.1, hg.2⟩
          · exact ih (c + step) x hmem
      · simp at h

lemma collect_centers_chain (bs be half step c : ℤ) :
    List.Chain' (fun a b => b = a + step) (collect_centers bs be half step c) :=
  collect_go_chain bs be half step _ c

lemma collect_centers_mem (bs be half step c x : ℤ)
    (h : x ∈ collect_centers bs be half step c) : bs ≤ x - half ∧ x + half ≤ be :=
  collect_go_mem bs be half step _ c x h

lemma collect_centers_eq_nil_iff (bs be half step c : ℤ) :
    collect_centers bs be half step c = [] ↔ ¬(bs ≤ c - half ∧ c + half ≤ be) := by
  unfold collect_centers
  rcases hn : (be - half - c + 1).toNat with _ | m
  · constructor
    · intro _ hg
      omega
    · intro _
      simp [collect_go]
  · simp only [collect_go]
    split
    · next hg => simp [hg]
    · next hg => simp [hg]

lemma collect_centers_cons_facts (bs be half step c x : ℤ) (t : List ℤ)
    (h : collect_centers bs be half step c = x :: t) :
    x = c ∧ bs ≤ c - half ∧ c + half ≤ be := by
  have hne : collect_centers bs be half step c ≠ [] := by simp [h]
  have hg := (not_iff_not.mpr (collect_centers_eq_nil_iff bs be half step c)).mp hne
  push_neg at hg
  have hx : x = c := by
    unfold collect_centers at h
    exact collect_go_head bs be half step _ c x t h
  exact ⟨hx, by omega, by omega⟩

lemma chain_dropLast {α : Type _} {R : α → α → Prop} :
    ∀ l : List α, List.Chain' R l → List.Chain' R l.dropLast := by
  intro l
  induction l with
  | nil => intro _; simp
  | cons a t ih =>
      intro h
      cases t with
      | nil => simp
      | cons b t' =>
          cases t' with
          | nil => simp
          | cons c t'' =>
              have h' := List.chain'_cons.mp h
              have ih' := ih h'.2
              simp only [List.dropLast_cons₂] at ih' ⊢
              exact List.chain'_cons.mpr ⟨h'.1, ih'⟩

lemma getLastD_cons_mem {α : Type _} (a : α) (l : List α) (d : α) :
    (a :: l).getLastD d ∈ a :: l := by
  rw [List.getLastD_cons]
  exact List.getLastD_mem_cons l a

lemma getLast?_cons_eq_getLastD {α : Type _} (a : α) (l : List α) (d : α) :
    (a :: l).getLast? = some ((a :: l).getLastD d) := by
  obtain ⟨z, hz⟩ := Option.isSome_iff_exists.mp (List.getLast?_isSome.mpr (List.cons_ne_nil a l))
  rw [hz, List.getLastD_eq_getLast?, hz]
  rfl

end BandMath

namespace BandMath

open Py

lemma tuning_points_hz_of_empty (bs be step c0 : ℤ)
    (h : collect_centers bs be (step / 2) step (c0 + mathCeilDiv (bs + step / 2 - c0) step * step) = []) :
    tuning_points_hz bs be step c0 =
      if clamped_edge bs be step c0 ≤ bs ∨ be ≤ clamped_edge bs be step c0
      then [(bs + be) / 2]
      else [bs + (clamped_edge bs be step c0 - bs) / 2,
            be - (be - clamped_edge bs be step c0) / 2] := by
  simp only [tuning_points_hz, clamped_edge]
  rw [h]
  simp

lemma tuning_points_hz_of_cons (bs be step c0 fc : ℤ) (rest : List ℤ)
    (h : collect_centers bs be (step / 2) step (c0 + mathCeilDiv (bs + step / 2 - c0) step * step) = fc :: rest) :
    tuning_points_hz bs be step c0 =
      if (fc :: rest).getLastD 0 + step / 2 < be
      then (if bs < fc - step / 2 then (bs + (fc - step / 2 - bs) / 2) :: fc :: rest else fc :: rest)
             ++ [be - (be - ((fc :: rest).getLastD 0 + step / 2)) / 2]
      else (if bs < fc - step / 2 then (bs + (fc - step / 2 - bs) / 2) :: fc :: rest else fc :: rest) := by
  simp only [tuning_points_hz]
  rw [h]
  simp

/-- Claim C2: for every input with band_end > band_start and segment_size > 0
(stated on the integer-Hz core, the domain in which the source performs all
arithmetic), the list returned by the tuning-point generator is sorted
strictly ascending, every point lies within [band_start, band_end], and
consecutive interior points (the points other than the first and the last of
the list) are spaced exactly segment_size apart. -/
theorem tuning_points_sorted_inrange_spacing (bs be step c0 : ℤ)
    (hband : bs < be) (hstep : 0 < step) :
    List.Chain' (· < ·) (tuning_points_hz bs be step c0) ∧
    (∀ p ∈ tuning_points_hz bs be step c0, bs ≤ p ∧ p ≤ be) ∧
    List.Chain' (fun a b => b - a = step) (((tuning_points_hz bs be step c0).drop 1).dropLast) := by
  have hhalf0 : 0 ≤ step / 2 := by omega
  rcases hpts : collect_centers bs be (step / 2) step (c0 + mathCeilDiv (bs + step / 2 - c0) step * step)
    with _ | ⟨fc, rest⟩
  · rw [tuning_points_hz_of_empty bs be step c0 hpts]
    by_cases hdeg : clamped_edge bs be step c0 ≤ bs ∨ be ≤ clamped_edge bs be step c0
    · rw [if_pos hdeg]
      refine ⟨List.chain'_singleton _, ?_, by simp⟩
      intro p hp
      rcases List.mem_singleton.mp hp with rfl
      omega
    · rw [if_neg hdeg]
      push_neg at hdeg
      refine ⟨List.chain'_pair.mpr (by omega), ?_, by simp⟩
      intro p hp
      rcases List.mem_cons.mp hp with rfl | hp'
      · omega
      · rcases List.mem_singleton.mp hp' with rfl
        omega
  · have hfacts := collect_centers_cons_facts bs be (step / 2) step _ fc rest hpts
    obtain ⟨hfc, hg1, hg2⟩ := hfacts
    have hchain : List.Chain' (fun a b => b = a + step) (fc :: rest) :=
      hpts ▸ collect_centers_chain bs be (step / 2) step _
    have hmem : ∀ x ∈ fc :: rest, bs ≤ x - step / 2 ∧ x + step / 2 ≤ be := by
      intro x hx
      exact collect_centers_mem bs be (step / 2) step _ x (hpts ▸ hx)
    have hfcb := hmem fc (List.mem_cons_self fc rest)
    have hlast_mem : (fc :: rest).getLastD 0 ∈ fc :: rest := getLastD_cons_mem fc rest 0
    have hlast_b := hmem _ hlast_mem
    have hltchain : List.Chain' (· < ·) (fc :: rest) := hchain.imp (fun a b hab => by omega)
    have hstepchain : List.Chain' (fun a b => b - a = step) (fc :: rest) :=
      hchain.imp (fun a b hab => by omega)
    have hlast? : (fc :: rest).getLast? = some ((fc :: rest).getLastD 0) :=
      getLast?_cons_eq_getLastD fc rest 0
    rw [tuning_points_hz_of_cons bs be step c0 fc rest hpts]
    by_cases htrail : (fc :: rest).getLastD 0 + step / 2 < be
    · rw [if_pos htrail]
      have happ : List.Chain' (· < ·)
          ((fc :: rest) ++ [be - (be - ((fc :: rest).getLastD 0 + step / 2)) / 2]) := by
        refine List.chain'_append.mpr ⟨hltchain, List.chain'_singleton _, ?_⟩
        intro x hx y hy
        rw [hlast?] at hx
        simp only [Option.mem_def, Option.some.injEq] at hx
        simp only [List.head?_cons, Option.mem_def, Option.some.injEq] at hy
        subst hx
        subst hy
        omega
      by_cases hlead : bs < fc - step / 2
      · rw [if_pos hlead]
        refine ⟨?_, ?_, ?_⟩
        · rw [List.cons_append]
          rw [List.cons_append] at happ ⊢
          exact List.chain'_cons.mpr ⟨by omega, happ⟩
        · intro p hp
          rcases List.mem_append.mp hp with hp' | hp'
          · rcases List.mem_cons.mp hp' with rfl | hp''
            · omega
            · have := hmem p hp''
              omega
          · rcases List.mem_singleton.mp hp' with rfl
            omega
        · have hd : (((bs + (fc - step / 2 - bs) / 2) :: fc :: rest)
              ++ [be - (be - ((fc :: rest).getLastD 0 + step / 2)) / 2]).drop 1
              = (fc :: rest) ++ [be - (be - ((fc :: rest).getLastD 0 + step / 2)) / 2] := by
            simp
          rw [hd, List.dropLast_concat]
          exact hstepchain
      · rw [if_neg hlead]
        refine ⟨happ, ?_, ?_⟩
        · intro p hp
          rcases List.mem_append.mp hp with hp' | hp'
          · have := hmem p hp'
            omega
          · rcases List.mem_singleton.mp hp' with rfl
            omega
        · have hd : ((fc :: rest) ++ [be - (be - ((fc :: rest).getLastD 0 + step / 2)) / 2]).drop 1
              = rest ++ [be - (be - ((fc :: rest).getLastD 0 + step / 2)) / 2] := by
            simp
          rw [hd, List.dropLast_concat]
          exact hstepchain.tail
    · rw [if_neg htrail]
      by_cases hlead : bs < fc - step / 2
      · rw [if_pos hlead]
        refine ⟨List.chain'_cons.mpr ⟨by omega, hltchain⟩, ?_, ?_⟩
        · intro p hp
          rcases List.mem_cons.mp hp with rfl | hp'
          · omega
          · have := hmem p hp'
            omega
        · have hd : (((bs + (fc - step / 2 - bs) / 2) :: fc :: rest).drop 1) = fc :: rest := by
            simp
          rw [hd]
          exact chain_dropLast _ hstepchain
      · rw [if_neg hlead]
        refine ⟨hltchain, ?_, ?_⟩
        · intro p hp
          have := hmem p hp
          omega
        · have hd : ((fc :: rest).drop 1) = rest := by simp
          rw [hd]
          exact chain_dropLast _ hstepchain.tail

/-- Witness for claim C2 at the concrete input bs = 0, be = 10000,
step = 3000, c0 = 1500 (the hypotheses 0 < 10000 and 0 < 3000 hold). -/
theorem tuning_points_sorted_inrange_spacing_witness :
    List.Chain' (· < ·) (tuning_points_hz 0 10000 3000 1500) ∧
    (∀ p ∈ tuning_points_hz 0 10000 3000 1500, 0 ≤ p ∧ p ≤ 10000) ∧
    List.Chain' (fun a b => b - a = 3000) (((tuning_points_hz 0 10000 3000 1500).drop 1).dropLast) :=
  tuning_points_sorted_inrange_spacing 0 10000 3000 1500 (by norm_num) (by norm_num)

/-- Claim C7: for every valid input (band_end > band_start, segment_size > 0)
in which no full segment fits inside the band, the generator returns exactly
two points, the midpoints of the band split at the clamped edge L of the
nearest would-be segment, except in the degenerate sub-case in which the
clamped edge falls on a band boundary, where it returns exactly one point at
the band midpoint. -/
theorem tuning_points_no_full_segment (bs be step c0 : ℤ)
    (hband : bs < be) (hstep : 0 < step)
    (hnofit : no_full_segment_fits bs be step c0) :
    (bs < clamped_edge bs be step c0 ∧ clamped_edge bs be step c0 < be ∧
      tuning_points_hz bs be step c0 =
        [bs + (clamped_edge bs be step c0 - bs) / 2,
         be - (be - clamped_edge bs be step c0) / 2]) ∨
    ((clamped_edge bs be step c0 ≤ bs ∨ be ≤ clamped_edge bs be step c0) ∧
      tuning_points_hz bs be step c0 = [(bs + be) / 2]) := by
  have hempty : collect_centers bs be (step / 2) step
      (c0 + mathCeilDiv (bs + step / 2 - c0) step * step) = [] := by
    rw [collect_centers_eq_nil_iff]
    intro hg
    exact hnofit (mathCeilDiv (bs + step / 2 - c0) step) hg
  rw [tuning_points_hz_of_empty bs be step c0 hempty]
  by_cases hdeg : clamped_edge bs be step c0 ≤ bs ∨ be ≤ clamped_edge bs be step c0
  · exact Or.inr ⟨hdeg, if_pos hdeg⟩
  · have hdeg' := hdeg
    push_neg at hdeg'
    exact Or.inl ⟨hdeg'.1, hdeg'.2, if_neg hdeg⟩

/-- Witness for claim C7 at the concrete input bs = 0, be = 1000, step = 3000,
c0 = 0: the band is narrower than one segment, no grid segment fits, and the
generator returns the single band midpoint. -/
theorem tuning_points_no_full_segment_witness :
    ((0 : ℤ) < clamped_edge 0 1000 3000 0 ∧ clamped_edge 0 1000 3000 0 < 1000 ∧
      tuning_points_hz 0 1000 3000 0 =
        [0 + (clamped_edge 0 1000 3000 0 - 0) / 2,
         1000 - (1000 - clamped_edge 0 1000 3000 0) / 2]) ∨
    ((clamped_edge 0 1000 3000 0 ≤ 0 ∨ 1000 ≤ clamped_edge 0 1000 3000 0) ∧
      tuning_points_hz 0 1000 3000 0 = [(0 + 1000) / 2]) :=
  tuning_points_no_full_segment 0 1000 3000 0 (by norm_num) (by norm_num)
    (by intro k hk; omega)

/-- Claim C10: for every input with band_end_khz at most band_start_khz,
calculate_tuning_frequencies returns the empty list without raising, even
when segment_size_khz is nonpositive, because the degenerate-band check
precedes the segment-size validation; the ValueError for a nonpositive
segment size is raised only when band_end_khz > band_start_khz (and then
only when the rounded Hz segment size is nonpositive). -/
theorem calculate_tuning_frequencies_degenerate_check_first (s e seg c : ℚ) :
    (e ≤ s → calculate_tuning_frequencies s e seg c = .ok []) ∧
    (∀ msg, calculate_tuning_frequencies s e seg c = .error msg →
      s < e ∧ pyRound (seg * 1000) ≤ 0) := by
  constructor
  · intro h
    simp [calculate_tuning_frequencies, h]
  · intro msg h
    by_cases h1 : e ≤ s
    · simp [calculate_tuning_frequencies, h1] at h
    · by_cases h2 : pyRound (seg * 1000) ≤ 0
      · exact ⟨lt_of_not_le h1, h2⟩
      · simp [calculate_tuning_frequencies, h1, h2] at h

/-- Witness for claim C10 at the concrete input band_start = 10 kHz,
band_end = 5 kHz, segment_size = -3 kHz: the degenerate band returns the
empty list even though the segment size is negative. -/
theorem calculate_tuning_frequencies_degenerate_check_first_witness :
    ((5 : ℚ) ≤ 10 → calculate_tuning_frequencies 10 5 (-3) 0 = .ok []) ∧
    (∀ msg, calculate_tuning_frequencies 10 5 (-3) 0 = .error msg →
      (10 : ℚ) < 5 ∧ pyRound ((-3) * 1000) ≤ 0) :=
  calculate_tuning_frequencies_degenerate_check_first 10 5 (-3) 0

end BandMath

namespace Py

/-- Python str.strip(): drop whitespace from both ends. -/
def pyStrip (s : List Char) : List Char :=
  ((s.dropWhile Char.isWhitespace).reverse.dropWhile Char.isWhitespace).reverse

/-- Python str.upper() on the ASCII range. -/
def pyUpper (s : List Char) : List Char := s.map Char.toUpper

/-- Python str.lower() on the ASCII range. -/
def pyLower (s : List Char) : List Char := s.map Char.toLower

/-- Python str.startswith(pat): pat is a prefix of s. -/
def starts_with : List Char → List Char → Bool
  | [], _ => true
  | _ :: _, [] => false
  | p :: ps, c :: cs => p = c && starts_with ps cs

/-- Helper for py_split_ws, structural on an explicit budget (the length of
the list, which bounds the number of emitted tokens and skipped blanks). -/
def split_ws_go : ℕ → List Char → List (List Char)
  | 0, _ => []
  | _, [] => []
  | f + 1, c :: cs =>
      if c.isWhitespace then split_ws_go f cs
      else
        (c :: cs).takeWhile (fun d => !d.isWhitespace)
          :: split_ws_go f ((c :: cs).dropWhile (fun d => !d.isWhitespace))

/-- Python str.split() with no argument: split on whitespace runs, dropping
empty tokens. -/
def py_split_ws (s : List Char) : List (List Char) := split_ws_go s.length s

/-- Digit-string value accumulator for py_int. -/
def digits_nat_go (acc : ℕ) : List Char → Option ℕ
  | [] => some acc
  | c :: cs => if c.isDigit then digits_nat_go (acc * 10 + (c.toNat - 48)) cs else none

/-- Value of a nonempty all-digit string. -/
def digits_nat (ds : List Char) : Option ℕ :=
  if ds.isEmpty then none else digits_nat_go 0 ds

/-- Python int(str) on an already-stripped token: optional sign followed by
at least one digit; None models the ValueError branch. -/
def py_int (tok : List Char) : Option ℤ :=
  match tok with
  | '-' :: ds => (digits_nat ds).map (fun n => -(n : ℤ))
  | '+' :: ds => (digits_nat ds).map (fun n => (n : ℤ))
  | ds => (digits_nat ds).map (fun n => (n : ℤ))

/-- Decimal digits of a natural number, structural on an explicit budget
(n + 1 always suffices since a number has at most n + 1 digits). -/
def natDigitsAux : ℕ → ℕ → List Char
  | 0, _ => []
  | f + 1, n => if n < 10 then [Nat.digitChar n] else natDigitsAux f (n / 10) ++ [Nat.digitChar (n % 10)]

/-- Decimal representation of a natural number, as Python str(n). -/
def natDigits (n : ℕ) : List Char := natDigitsAux (n + 1) n

/-- Decimal representation of an integer, as Python str(i). -/
def int_chars (i : ℤ) : List Char :=
  if i < 0 then '-' :: natDigits (-i).toNat else natDigits i.toNat

end Py

namespace RF2KS

open Py

/-- Outcome of one attempt of the verification loop of
RF2KSClient.verify_frequency_match (src/rf2ks_client.py lines 143-166):
either the GET request raised (the except branch), or it returned a payload
whose frequency object carries an optional value and an optional unit
string. -/
inductive TryResult
  | reqError
  | data (value : Option ℚ) (unit : Option (List Char))

/-- _normalize_hz (src/rf2ks_client.py lines 301-320): convert a frequency
value plus unit pair to integer Hz; the unit comparison is on the stripped,
lowercased unit; an absent or unparseable value and an unknown unit give
None. -/
def _normalize_hz (value : Option ℚ) (unit : Option (List Char)) : Option ℤ :=
  match value with
  | none => none
  | some v =>
      let u := pyLower (pyStrip (unit.getD []))
      if u = "hz".toList ∨ u = [] then some (pyRound v)
      else if u = "khz".toList then some (pyRound (v * 1000))
      else if u = "mhz".toList then some (pyRound (v * 1000000))
      else none

/-- _truncate_to_khz (src/rf2ks_client.py lines 323-332): clamp negatives to
zero, then truncate down to the lower kHz boundary (no rounding). -/
def _truncate_to_khz (hz : ℤ) : ℤ :=
  (if hz < 0 then 0 else hz) / 1000 * 1000

/-- The normalized Hz reading of one verification attempt (None when the
request raised or the payload did not normalize). -/
def try_normalized_hz : TryResult → Option ℤ
  | .reqError => none
  | .data v u => _normalize_hz v u

/-- The retry loop of verify_frequency_match (src/rf2ks_client.py lines
143-166): walk the per-attempt outcomes, returning true at the first
attempt whose normalized reading truncates to the expected kHz boundary. -/
def verify_go (expected_trunc : ℤ) : List TryResult → Bool
  | [] => false
  | .reqError :: rest => verify_go expected_trunc rest
  | .data v u :: rest =>
      match _normalize_hz v u with
      | none => verify_go expected_trunc rest
      | some hz =>
          if _truncate_to_khz hz = expected_trunc then true else verify_go expected_trunc rest

/-- RF2KSClient.verify_frequency_match (src/rf2ks_client.py lines 122-175):
the loop runs max_tries attempts (the first max_tries entries of the
attempt stream) and raises RF2KSClientError (modelled as .error) when no
attempt matched. -/
def verify_frequency_match (expected_freq_mhz : ℚ) (max_tries : ℕ) (tries : List TryResult) :
    Except String Unit :=
  let expected_hz := pyRound (expected_freq_mhz * 1000000)
  let expected_trunc := _truncate_to_khz expected_hz
  if verify_go expected_trunc (tries.take max_tries) then .ok ()
  else .error "/data did not report expected frequency (truncated kHz)."

lemma verify_go_iff (et : ℤ) :
    ∀ l : List TryResult,
      verify_go et l = true ↔
        ∃ t ∈ l, ∃ hz, try_normalized_hz t = some hz ∧ _truncate_to_khz hz = et := by
  intro l
  induction l with
  | nil => simp [verify_go]
  | cons t rest ih =>
      cases t with
      | reqError =>
          simp only [verify_go, ih, List.mem_cons]
          constructor
          · rintro ⟨t', ht', hz, hn, he⟩
            exact ⟨t', Or.inr ht', hz, hn, he⟩
          · rintro ⟨t', ht', hz, hn, he⟩
            rcases ht' with rfl | ht'
            · simp [try_normalized_hz] at hn
            · exact ⟨t', ht', hz, hn, he⟩
      | data v u =>
          simp only [verify_go]
          cases hn : _normalize_hz v u with
          | none =>
              simp only [ih, List.mem_cons]
              constructor
              · rintro ⟨t', ht', hz, hn', he⟩
                exact ⟨t', Or.inr ht', hz, hn', he⟩
              · rintro ⟨t', ht', hz, hn', he⟩
                rcases ht' with rfl | ht'
                · rw [show try_normalized_hz (TryResult.data v u) = _normalize_hz v u from rfl, hn] at hn'
                  exact absurd hn' (by simp)
                · exact ⟨t', ht', hz, hn', he⟩
          | some hz =>
              show (if _truncate_to_khz hz = et then true else verify_go et rest) = true ↔ _
              by_cases he : _truncate_to_khz hz = et
              · rw [if_pos he]
                constructor
                · intro _
                  exact ⟨TryResult.data v u, List.mem_cons_self _ _, hz,
                    by simp [try_normalized_hz, hn], he⟩
                · intro _
                  rfl
              · rw [if_neg he]
                simp only [ih, List.mem_cons]
                constructor
                · rintro ⟨t', ht', hz', hn', he'⟩
                  exact ⟨t', Or.inr ht', hz', hn', he'⟩
                · rintro ⟨t', ht', hz', hn', he'⟩
                  rcases ht' with rfl | ht'
                  · rw [show try_normalized_hz (TryResult.data v u) = _normalize_hz v u from rfl, hn] at hn'
                    rcases Option.some.injEq _ _ ▸ hn' with rfl
                    exact absurd he' he
                  · exact ⟨t', ht', hz', hn', he'⟩

/-- Claim C6: verify_frequency_match returns without raising iff, within the
retry budget (the first max_tries attempts), the amplifier reports a
frequency (value plus unit, normalized to integer Hz) whose value truncated
(not rounded) to the nearest lower kHz boundary equals the expected MHz
frequency converted to Hz and truncated the same way; otherwise it raises
RF2KSClientError. -/
theorem verify_frequency_match_ok_iff (expected_freq_mhz : ℚ) (max_tries : ℕ)
    (tries : List TryResult) :
    verify_frequency_match expected_freq_mhz max_tries tries = .ok () ↔
      ∃ t ∈ tries.take max_tries, ∃ hz, try_normalized_hz t = some hz ∧
        _truncate_to_khz hz = _truncate_to_khz (pyRound (expected_freq_mhz * 1000000)) := by
  unfold verify_frequency_match
  by_cases h : verify_go (_truncate_to_khz (pyRound (expected_freq_mhz * 1000000)))
      (tries.take max_tries) = true
  · rw [if_pos h]
    simp only [true_iff]
    exact (verify_go_iff _ _).mp h
  · rw [if_neg h]
    constructor
    · intro hc
      exact absurd hc (by simp)
    · intro hex
      exact absurd ((verify_go_iff _ _).mpr hex) h

end RF2KS

namespace TuningLoop

open Py RF2KS

/-- Observable per-segment actions of run_tuning_loop (src/tuning_loop.py):
the radio frequency command for a segment, and the entry into the
PTT-acquisition (carrier wait) phase for that segment. -/
inductive TLEvent
  | set_frequency (freq_mhz : ℚ)
  | ptt_acquisition (freq_mhz : ℚ)
deriving DecidableEq

/-- Per-segment skeleton of run_tuning_loop (src/tuning_loop.py lines
147-337), restricted to what claim C1 is about.  For each (frequency,
amplifier-attempt-stream) entry of the plan: set the radio frequency; when
verification is enabled (amp enabled, CAT interface, non-dummy radio), call
verify_frequency_match with max_tries = 2; an exception there is re-raised
as FatalFrequencyMismatch (the some message in the second component),
aborting the whole run; otherwise run the PTT-acquisition phase and
continue with the remaining plan. -/
def run_tuning_loop (verify_enabled : Bool) :
    List (ℚ × List TryResult) → List TLEvent × Option String
  | [] => ([], none)
  | (freq_mhz, tries) :: rest =>
      if verify_enabled then
        match verify_frequency_match freq_mhz 2 tries with
        | .error e => ([TLEvent.set_frequency freq_mhz],
            some ("FatalFrequencyMismatch: " ++ e))
        | .ok _ =>
            let r := run_tuning_loop verify_enabled rest
            (TLEvent.set_frequency freq_mhz :: TLEvent.ptt_acquisition freq_mhz :: r.1, r.2)
      else
        let r := run_tuning_loop verify_enabled rest
        (TLEvent.set_frequency freq_mhz :: TLEvent.ptt_acquisition freq_mhz :: r.1, r.2)

/-- Claim C1: when amplifier frequency verification is enabled and the
amplifier never reports a frequency matching the target truncated to the
kHz boundary within the max_tries = 2 budget, verify_frequency_match raises
RF2KSClientError, and run_tuning_loop raises FatalFrequencyMismatch at that
segment, aborting the entire run: the event trace stops at the frequency
command of that segment, the PTT-acquisition (carrier wait) phase for that
segment is never entered, and no later segment is processed. -/
theorem run_tuning_loop_fatal_on_verify_exhaustion (freq_mhz : ℚ)
    (tries : List TryResult) (rest : List (ℚ × List TryResult))
    (hmis : ∀ t ∈ tries.take 2, ∀ hz, try_normalized_hz t = some hz →
      _truncate_to_khz hz ≠ _truncate_to_khz (pyRound (freq_mhz * 1000000))) :
    (∃ msg, verify_frequency_match freq_mhz 2 tries = .error msg) ∧
    (run_tuning_loop true ((freq_mhz, tries) :: rest)).1 = [TLEvent.set_frequency freq_mhz] ∧
    (run_tuning_loop true ((freq_mhz, tries) :: rest)).2.isSome = true ∧
    TLEvent.ptt_acquisition freq_mhz ∉ (run_tuning_loop true ((freq_mhz, tries) :: rest)).1 := by
  have hgo : verify_go (_truncate_to_khz (pyRound (freq_mhz * 1000000))) (tries.take 2) = false := by
    by_contra hc
    have := (verify_go_iff _ _).mp (Bool.of_not_eq_false hc)
    obtain ⟨t, ht, hz, hn, he⟩ := this
    exact hmis t ht hz hn he
  have hv : verify_frequency_match freq_mhz 2 tries =
      .error "/data did not report expected frequency (truncated kHz)." := by
    simp [verify_frequency_match, hgo]
  refine ⟨⟨_, hv⟩, ?_, ?_, ?_⟩
  · simp [run_tuning_loop, hv]
  · simp [run_tuning_loop, hv]
  · simp [run_tuning_loop, hv]

/-- Witness for claim C1 at the concrete input: target 14 MHz, an amplifier
whose /data request fails on both attempts (so no attempt ever matches),
and one further planned segment that is consequently never reached. -/
theorem run_tuning_loop_fatal_on_verify_exhaustion_witness :
    (∃ msg, verify_frequency_match 14 2 [TryResult.reqError, TryResult.reqError] = .error msg) ∧
    (run_tuning_loop true [(14, [TryResult.reqError, TryResult.reqError]), (15, [])]).1
      = [TLEvent.set_frequency 14] ∧
    (run_tuning_loop true [(14, [TryResult.reqError, TryResult.reqError]), (15, [])]).2.isSome = true ∧
    TLEvent.ptt_acquisition 14
      ∉ (run_tuning_loop true [(14, [TryResult.reqError, TryResult.reqError]), (15, [])]).1 :=
  run_tuning_loop_fatal_on_verify_exhaustion 14 [TryResult.reqError, TryResult.reqError] [(15, [])]
    (by
      intro t ht hz hn _
      rcases List.mem_cons.mp ht with rfl | ht'
      · simp [try_normalized_hz] at hn
      · rcases List.mem_cons.mp ht' with rfl | ht''
        · simp [try_normalized_hz] at hn
        · simp at ht'')

end TuningLoop

namespace FlexTransport

open Py

/-- The ACK-matching test of FlexTransport.send_command
(src/radios/flexradio/transport.py line 257):
resp.startswith(f"R{seq}|"). -/
def ack_matches (seq : ℕ) (line : List Char) : Bool :=
  starts_with ('R' :: natDigits seq ++ ['|']) line

/-- The ACK wait loop of send_command (src/radios/flexradio/transport.py
lines 251-275) as seen by one caller: the caller repeatedly takes the next
line it is handed from the response queue; a line matching its own sequence
number is returned, any other line is dropped (not re-queued) and the loop
continues; None models reaching the ack deadline. -/
def await_ack (seq : ℕ) : List (List Char) → Option (List Char)
  | [] => none
  | l :: rest => if ack_matches seq l then some l else await_ack seq rest

/-- A pending send_command caller: its sequence number, and the ACK line it
has accepted, if any. -/
structure PendingCall where
  seq : ℕ
  ack : Option (List Char)
deriving DecidableEq

/-- Hand one inbound ACK line to the pending caller at position idx (the
caller that happened to win the queue.get race): that caller accepts the
line iff it matches its own sequence number and it has not been satisfied
yet; otherwise the line is dropped. -/
def deliver_to : List PendingCall → ℕ → List Char → List PendingCall
  | [], _, _ => []
  | p :: ps, 0, line =>
      (if p.ack = none ∧ ack_matches p.seq line then { p with ack := some line } else p) :: ps
  | p :: ps, n + 1, line => p :: deliver_to ps n line

/-- Run a whole delivery schedule: each entry is (index of the caller that
takes the line from the shared queue, the line). -/
def run_ack_delivery (pending : List PendingCall) : List (ℕ × List Char) → List PendingCall
  | [] => pending
  | (idx, line) :: rest => run_ack_delivery (deliver_to pending idx line) rest

lemma deliver_to_preserves :
    ∀ (pending : List PendingCall) (idx : ℕ) (line : List Char),
      (∀ p ∈ pending, ∀ l, p.ack = some l → ack_matches p.seq l = true) →
      ∀ p ∈ deliver_to pending idx line, ∀ l, p.ack = some l → ack_matches p.seq l = true := by
  intro pending
  induction pending with
  | nil => intro idx line _ p hp; simp [deliver_to] at hp
  | cons q qs ih =>
      intro idx line hinv p hp l hl
      cases idx with
      | zero =>
          by_cases hcond : q.ack = none ∧ ack_matches q.seq line = true
          · rw [show deliver_to (q :: qs) 0 line =
                ({ q with ack := some line } :: qs) by simp [deliver_to, hcond]] at hp
            rcases List.mem_cons.mp hp with rfl | hp'
            · simp only [Option.some.injEq] at hl
              subst hl
              exact hcond.2
            · exact hinv p (List.mem_cons_of_mem _ hp') l hl
          · rw [show deliver_to (q :: qs) 0 line = (q :: qs) by simp [deliver_to, hcond]] at hp
            exact hinv p hp l hl
      | succ n =>
          simp only [deliver_to] at hp
          rcases List.mem_cons.mp hp with rfl | hp'
          · exact hinv p (List.mem_cons_self _ _) l hl
          · exact ih n line (fun r hr => hinv r (List.mem_cons_of_mem _ hr)) p hp' l hl

/-- Amended claim C3: a send_command call tagged with sequence number s is
satisfied only by an ACK line of the form R<s>|... — first conjunct for a
single caller, second conjunct for any number of concurrently pending
callers under any delivery interleaving (an ACK is never cross-assigned) —
and in the one-command-in-flight discipline, where the waiting caller
observes every delivered line, an ACK for its sequence number is always
routed to it (third conjunct).  What the original claim adds — that with
three concurrently pending callers the delivery order 2, 1, 3 routes every
ACK to its correct caller — fails, because a mismatched ACK taken from the
shared response queue by another waiting caller is dropped, not re-queued
(see the counterexample). -/
theorem flex_send_command_ack_correlation :
    (∀ (seq : ℕ) (q : List (List Char)) (l : List Char),
        await_ack seq q = some l → ack_matches seq l = true) ∧
    (∀ (pending : List PendingCall) (sched : List (ℕ × List Char)),
        (∀ p ∈ pending, ∀ l, p.ack = some l → ack_matches p.seq l = true) →
        ∀ p ∈ run_ack_delivery pending sched, ∀ l, p.ack = some l → ack_matches p.seq l = true) ∧
    (∀ (seq : ℕ) (q : List (List Char)),
        (∃ l ∈ q, ack_matches seq l = true) →
        ∃ l, await_ack seq q = some l ∧ ack_matches seq l = true) := by
  refine ⟨?_, ?_, ?_⟩
  · intro seq q
    induction q with
    | nil => intro l h; simp [await_ack] at h
    | cons x rest ih =>
        intro l h
        simp only [await_ack] at h
        split at h
        · next hm =>
            simp only [Option.some.injEq] at h
            subst h
            exact hm
        · exact ih l h
  · intro pending sched
    induction sched generalizing pending with
    | nil => intro hinv; exact hinv
    | cons e rest ih =>
        intro hinv
        rcases e with ⟨idx, line⟩
        exact ih (deliver_to pending idx line) (deliver_to_preserves pending idx line hinv)
  · intro seq q
    induction q with
    | nil => intro h; simp at h
    | cons x rest ih =>
        intro h
        by_cases hm : ack_matches seq x = true
        · exact ⟨x, by simp [await_ack, hm], hm⟩
        · obtain ⟨l, hl, hml⟩ := h
          rcases List.mem_cons.mp hl with rfl | hl'
          · exact absurd hml hm
          · obtain ⟨l', hl', hml'⟩ := ih ⟨l, hl', hml⟩
            refine ⟨l', ?_, hml'⟩
            simpa [await_ack, hm] using hl'

/-- Counterexample to claim C3 as stated: three callers pending with
sequence numbers 1, 2, 3; the ACKs arrive in the order R2|0, R1|0, R3|0 and
are taken from the shared response queue by callers 1, 2, 3 respectively
(each a legal winner of the queue.get race).  The first two lines are
dropped by the non-matching callers that pulled them, so the callers with
sequence numbers 1 and 2 end unsatisfied even though their ACKs were
delivered while they were pending: the ACKs are not routed to their correct
pending callers (though none is ever cross-assigned). -/
theorem flex_ack_routing_counterexample :
    ack_matches 2 "R2|0".toList = true ∧
    run_ack_delivery [⟨1, none⟩, ⟨2, none⟩, ⟨3, none⟩]
        [(0, "R2|0".toList), (1, "R1|0".toList), (2, "R3|0".toList)]
      = [⟨1, none⟩, ⟨2, none⟩, ⟨3, some "R3|0".toList⟩] := by
  decide

end FlexTransport

namespace Rigctl

open Py

/-- The RigctlClient state touched by PTT capability handling
(src/radios/rigctl/client.py): the ptt_supported and supports_event_ptt
capability flags, the condition-guarded PTT boolean maintained by the
monitor thread, and whether the monitor thread is still running. -/
structure RigSession where
  ptt_supported : Bool
  supports_event_ptt : Bool
  ptt_active : Bool
  monitor_running : Bool
deriving DecidableEq

/-- RigctlClient.get_ptt (src/radios/rigctl/client.py lines 133-155) as a
function of the raw reply line to the 't' query: an empty stripped reply
returns False; a reply whose uppercase form starts with RPRT -11 latches
ptt_supported to False and returns False; otherwise the first whitespace
token is parsed with int() and the call returns whether it is nonzero
(False on a parse failure).  The branch for an empty token list is
unreachable because the stripped reply is nonempty. -/
def rig_get_ptt (s : RigSession) (raw : List Char) : RigSession × Bool :=
  let resp := pyStrip raw
  if resp = [] then (s, false)
  else if starts_with "RPRT -11".toList (pyUpper resp) then
    ({ s with ptt_supported := false }, false)
  else
    match py_split_ws resp with
    | [] => (s, false)
    | tok :: _ =>
        match py_int tok with
        | some v => (s, decide (v ≠ 0))
        | none => (s, false)

/-- One iteration of RigctlClient._ptt_monitor_loop
(src/radios/rigctl/client.py lines 443-492) on a received reply: an
RPRT -11 reply latches ptt_supported to False, clears the PTT state,
disables event mode and stops the thread; any other reply updates the PTT
boolean from the parsed value (False on a parse failure). -/
def monitor_poll_step (s : RigSession) (raw : List Char) : RigSession :=
  if s.monitor_running = false then s
  else
    let resp := pyStrip raw
    if starts_with "RPRT -11".toList (pyUpper resp) then
      { ptt_supported := false, supports_event_ptt := false,
        ptt_active := false, monitor_running := false }
    else
      let active :=
        match py_split_ws resp with
        | [] => false
        | tok :: _ =>
            match py_int tok with
            | some v => decide (v ≠ 0)
            | none => false
      { s with ptt_active := active }

/-- The PTT-capability-relevant events of one rigctl session: a one-shot
get_ptt call observing a raw reply, a monitor-thread poll observing a raw
reply, and an unrecoverable monitor transport failure (which disables event
mode via _disable_event_mode without touching ptt_supported,
src/radios/rigctl/client.py lines 454-468 and 502-507). -/
inductive RigIoEvent
  | get_ptt_call (raw : List Char)
  | monitor_poll (raw : List Char)
  | monitor_transport_failure

/-- One session step: dispatch an event to the code that handles it. -/
def rig_step (s : RigSession) : RigIoEvent → RigSession
  | .get_ptt_call raw => (rig_get_ptt s raw).1
  | .monitor_poll raw => monitor_poll_step s raw
  | .monitor_transport_failure =>
      if s.monitor_running then { s with supports_event_ptt := false, monitor_running := false }
      else s

lemma rig_get_ptt_preserves_false (s : RigSession) (raw : List Char)
    (h : s.ptt_supported = false) : (rig_get_ptt s raw).1.ptt_supported = false := by
  simp only [rig_get_ptt]
  split
  · exact h
  · split
    · rfl
    · split
      · exact h
      · split
        · exact h
        · exact h

lemma monitor_poll_step_preserves_false (s : RigSession) (raw : List Char)
    (h : s.ptt_supported = false) : (monitor_poll_step s raw).ptt_supported = false := by
  simp only [monitor_poll_step]
  split
  · exact h
  · split
    · rfl
    · exact h

lemma rig_step_preserves_false (s : RigSession) (e : RigIoEvent)
    (h : s.ptt_supported = false) : (rig_step s e).ptt_supported = false := by
  cases e with
  | get_ptt_call raw => exact rig_get_ptt_preserves_false s raw h
  | monitor_poll raw => exact monitor_poll_step_preserves_false s raw h
  | monitor_transport_failure =>
      show (if s.monitor_running then
          { s with supports_event_ptt := false, monitor_running := false }
        else s).ptt_supported = false
      split
      · exact h
      · exact h

/-- Amended claim C4: once the rigctl link observes the RPRT -11 reply to
the PTT query, the ptt_supported capability flag latches to false (first
conjunct: the observing get_ptt call itself flips the flag and returns
False) and never reverts to true for the remainder of the session under any
further get_ptt calls, monitor polls or monitor transport failures (second
conjunct) — the tuning loop reads this flag to select manual prompts.  What
the original claim adds — that a later get_ptt call itself still reports
the feature unsupported even when the raw reply looks like a valid boolean
— fails: get_ptt does not consult the latched flag and returns the parsed
boolean (see the counterexample). -/
theorem rigctl_ptt_supported_latch :
    (∀ (s : RigSession) (raw : List Char),
        pyStrip raw ≠ [] →
        starts_with "RPRT -11".toList (pyUpper (pyStrip raw)) = true →
        (rig_get_ptt s raw).1.ptt_supported = false ∧ (rig_get_ptt s raw).2 = false) ∧
    (∀ (s : RigSession) (evs : List RigIoEvent),
        s.ptt_supported = false → (evs.foldl rig_step s).ptt_supported = false) := by
  constructor
  · intro s raw hne hrprt
    unfold rig_get_ptt
    rw [if_neg hne, if_pos hrprt]
    exact ⟨rfl, rfl⟩
  · intro s evs
    induction evs generalizing s with
    | nil => intro h; exact h
    | cons e rest ih =>
        intro h
        exact ih (rig_step s e) (rig_step_preserves_false s e h)

/-- Counterexample to claim C4 as stated: starting from the optimistic
session state, the reply RPRT -11 latches ptt_supported to false, but a
later get_ptt call whose raw reply is the valid boolean 1 returns True (the
code never consults the latched flag inside get_ptt), instead of reporting
the feature unsupported for the remainder of the session. -/
theorem rigctl_get_ptt_counterexample :
    ((rig_get_ptt ⟨true, true, false, true⟩ "RPRT -11".toList).1.ptt_supported = false) ∧
    ((rig_get_ptt ⟨true, true, false, true⟩ "RPRT -11".toList).2 = false) ∧
    ((rig_get_ptt (rig_get_ptt ⟨true, true, false, true⟩ "RPRT -11".toList).1 "1".toList).2 = true) ∧
    ((rig_get_ptt (rig_get_ptt ⟨true, true, false, true⟩ "RPRT -11".toList).1 "1".toList).1.ptt_supported = false) := by
  decide

end Rigctl

namespace SetFreq

open Py

/-- The RigctlClient state touched by set_frequency
(src/radios/rigctl/client.py lines 127-131): the cached frequency snapshot
and the list of commands written to the rigctld socket. -/
structure RigctlFreqState where
  freq_hz : Option ℤ
  sent : List (List Char)
deriving DecidableEq

/-- RigctlClient.set_frequency (src/radios/rigctl/client.py lines 127-131):
it always sends the F command and then caches the frequency; it never
consults the cached value before sending. -/
def rigctl_set_frequency (s : RigctlFreqState) (freq_mhz : ℚ) : RigctlFreqState :=
  let hz := pyRound (freq_mhz * 1000000)
  { freq_hz := some hz, sent := s.sent ++ ["F ".toList ++ int_chars hz] }

/-- The FlexRadioClient state touched by set_frequency
(src/radios/flexradio/client.py lines 200-225): the mirrored slice
frequency per slice id (filled in by inbound slice status lines, not by
set_frequency itself), the mirrored TX slice id, and the issued slice tune
commands as (slice id, frequency MHz) pairs. -/
structure FlexFreqState where
  slices : List (ℕ × Option ℚ)
  tx_slice_id : Option ℕ
  sent : List (ℕ × ℚ)
deriving DecidableEq

/-- Minimum of a list of slice ids (sorted(keys)[0] in the source). -/
def min_key : List ℕ → Option ℕ
  | [] => none
  | k :: ks =>
      some (match min_key ks with
            | none => k
            | some m => Nat.min k m)

/-- FlexRadioClient._choose_slice_id_for_commands
(src/radios/flexradio/client.py lines 200-205): the TX slice if known, else
the lowest known slice id, else 0. -/
def choose_slice_id (s : FlexFreqState) : ℕ :=
  match s.tx_slice_id with
  | some sid => sid
  | none =>
      match min_key (s.slices.map Prod.fst) with
      | some m => m
      | none => 0

/-- The mirrored freq_mhz entry of a slice id, None when the mirror has no
such slice or no frequency for it. -/
def lookup_slice_freq (l : List (ℕ × Option ℚ)) (sid : ℕ) : Option ℚ :=
  match l.find? (fun p => p.1 == sid) with
  | some p => p.2
  | none => none

/-- FlexRadioClient.set_frequency (src/radios/flexradio/client.py lines
217-225): short-circuit without sending when the mirrored frequency of the
chosen slice is within 0.00001 MHz of the target, else send slice tune.
The mirror itself is only updated by inbound slice status lines. -/
def flex_set_frequency (s : FlexFreqState) (freq_mhz : ℚ) : FlexFreqState :=
  let sid := choose_slice_id s
  match lookup_slice_freq s.slices sid with
  | some current =>
      if |current - freq_mhz| < 1/100000 then s
      else { s with sent := s.sent ++ [(sid, freq_mhz)] }
  | none => { s with sent := s.sent ++ [(sid, freq_mhz)] }

/-- Amended claim C5: the event-driven FlexRadioClient short-circuits
set_frequency into a no-op (no command issued, state unchanged) whenever
the locally mirrored frequency of the chosen slice already matches the
target within the 0.00001 MHz tolerance — so a repeated call is a no-op
once the mirror reflects the value — while the polling RigctlClient issues
the underlying F command on every set_frequency call, a second identical
call included: it caches the value but never consults the cache.  What the
original claim adds — that two successive identical calls issue the
command exactly once on both implementations — fails for RigctlClient (see
the counterexample). -/
theorem set_frequency_idempotence_amended :
    (∀ (s : FlexFreqState) (f current : ℚ),
        lookup_slice_freq s.slices (choose_slice_id s) = some current →
        |current - f| < 1/100000 →
        flex_set_frequency s f = s) ∧
    (∀ (s : RigctlFreqState) (f : ℚ),
        (rigctl_set_frequency s f).sent.length = s.sent.length + 1) := by
  constructor
  · intro s f current hcur htol
    simp only [flex_set_frequency]
    rw [hcur]
    show (if |current - f| < 1/100000 then s else _) = s
    rw [if_pos htol]
  · intro s f
    simp [rigctl_set_frequency]

/-- Witness for the amended claim C5 at a concrete input: a Flex state whose
mirror already holds 14.0 MHz for the chosen slice makes set_frequency a
no-op, and one rigctl call appends one command. -/
theorem set_frequency_idempotence_amended_witness :
    flex_set_frequency ⟨[(0, some 14)], some 0, []⟩ 14 = ⟨[(0, some 14)], some 0, []⟩ ∧
    (rigctl_set_frequency ⟨none, []⟩ 14).sent.length = 0 + 1 :=
  ⟨set_frequency_idempotence_amended.1 ⟨[(0, some 14)], some 0, []⟩ 14 14 (by rfl)
      (by norm_num),
    set_frequency_idempotence_amended.2 ⟨none, []⟩ 14⟩

/-- Counterexample to claim C5 as stated: calling RigctlClient
set_frequency twice in succession with the same value, with no intervening
state change, issues the underlying F command twice, not once — the
implementation has no idempotent short-circuit. -/
theorem rigctl_set_frequency_counterexample :
    ((rigctl_set_frequency (rigctl_set_frequency ⟨none, []⟩ 14) 14).sent.length = 2) := by
  simp [rigctl_set_frequency]

end SetFreq

namespace WaitEdge

/-- FlexRadioClient.wait_for_tx (src/radios/flexradio/client.py lines
184-190): poll the mirrored PTT boolean in short sleeps until the deadline,
returning True at the first active sample; after the deadline, return the
final value of the flag.  The bounded wait is modelled by the finite list
of samples the loop reads before the deadline plus the one final read. -/
def flex_wait_for_tx : List Bool → Bool → Bool
  | [], finalRead => finalRead
  | r :: rest, finalRead => if r then true else flex_wait_for_tx rest finalRead

/-- FlexRadioClient.wait_for_unkey (src/radios/flexradio/client.py lines
192-198): dual of wait_for_tx, waiting for the flag to clear. -/
def flex_wait_for_unkey : List Bool → Bool → Bool
  | [], finalRead => !finalRead
  | r :: rest, finalRead => if !r then true else flex_wait_for_unkey rest finalRead

/-- RigctlClient.wait_for_tx (src/radios/rigctl/client.py lines 159-168):
condition-guarded bounded wait with the same structure — check the PTT
boolean, wait in bounded slices until the deadline, then return the final
value of the flag. -/
def rigctl_wait_for_tx : List Bool → Bool → Bool
  | [], finalRead => finalRead
  | r :: rest, finalRead => if r then true else rigctl_wait_for_tx rest finalRead

/-- RigctlClient.wait_for_unkey (src/radios/rigctl/client.py lines
170-179): dual of rigctl wait_for_tx. -/
def rigctl_wait_for_unkey : List Bool → Bool → Bool
  | [], finalRead => !finalRead
  | r :: rest, finalRead => if !r then true else rigctl_wait_for_unkey rest finalRead

/-- Claim C9: on both radio link implementations, wait_for_tx and
wait_for_unkey never raise on timeout — they are total functions into Bool
— and wait_for_tx returns true iff the TX-asserted state was observed at
some read of the bounded wait (the reads before the deadline or the final
at-deadline read), false otherwise; wait_for_unkey dually for the
TX-deasserted state. -/
theorem wait_edge_true_iff_edge_observed :
    (∀ (reads : List Bool) (finalRead : Bool),
        flex_wait_for_tx reads finalRead = true ↔ true ∈ reads ∨ finalRead = true) ∧
    (∀ (reads : List Bool) (finalRead : Bool),
        flex_wait_for_unkey reads finalRead = true ↔ false ∈ reads ∨ finalRead = false) ∧
    (∀ (reads : List Bool) (finalRead : Bool),
        rigctl_wait_for_tx reads finalRead = true ↔ true ∈ reads ∨ finalRead = true) ∧
    (∀ (reads : List Bool) (finalRead : Bool),
        rigctl_wait_for_unkey reads finalRead = true ↔ false ∈ reads ∨ finalRead = false) := by
  refine ⟨?_, ?_, ?_, ?_⟩
  all_goals
    intro reads finalRead
    induction reads with
    | nil => cases finalRead <;> simp [flex_wait_for_tx, flex_wait_for_unkey,
        rigctl_wait_for_tx, rigctl_wait_for_unkey]
    | cons r rest ih =>
        cases r <;> simp [flex_wait_for_tx, flex_wait_for_unkey,
          rigctl_wait_for_tx, rigctl_wait_for_unkey, ih]

end WaitEdge

namespace PttFlow

/-- The configuration flags consulted by wait_for_carrier_or_manual
(src/ptt_flow.py lines 32-45): the force_manual_ptt default and the Hamlib
Dummy model detection. -/
structure PttFlowArgs where
  force_manual : Bool
  is_dummy_model : Bool
deriving DecidableEq

/-- wait_for_carrier_or_manual (src/ptt_flow.py lines 11-108): immediate
manual when force_manual_ptt is set, the backend reports ptt_supported
False, or the rig is the Dummy model; otherwise poll get_ptt up to the
adaptive fallback deadline — the samples list holds one entry per poll,
none standing for a poll that raised — and on the first True engage the
automatic flow; if no True sample arrives within the window, set the links
ptt_supported attribute to False and engage manual.  Returns (manual
engaged, ptt_supported flag after the call). -/
def wait_for_carrier_or_manual (args : PttFlowArgs) (ptt_supported : Bool)
    (samples : List (Option Bool)) : Bool × Bool :=
  if args.force_manual || !ptt_supported || args.is_dummy_model then (true, ptt_supported)
  else if samples.any (fun r => r == some true) then (false, ptt_supported)
  else (true, false)

/-- A session of acquire-carrier cycles: one wait_for_carrier_or_manual
call per segment, threading the ptt_supported flag; returns the per-segment
manual-engaged decisions and the final flag. -/
def ptt_session (args : PttFlowArgs) : Bool → List (List (Option Bool)) → List Bool × Bool
  | flag, [] => ([], flag)
  | flag, seg :: rest =>
      let r := wait_for_carrier_or_manual args flag seg
      let t := ptt_session args r.2 rest
      (r.1 :: t.1, t.2)

lemma ptt_session_flag_false (args : PttFlowArgs) :
    ∀ segs : List (List (Option Bool)),
      (ptt_session args false segs).1 = segs.map (fun _ => true) ∧
      (ptt_session args false segs).2 = false := by
  intro segs
  induction segs with
  | nil => exact ⟨rfl, rfl⟩
  | cons seg rest ih =>
      have hr : wait_for_carrier_or_manual args false seg = (true, false) := by
        simp [wait_for_carrier_or_manual]
      simp only [ptt_session, hr]
      exact ⟨by simp [ih.1], ih.2⟩

lemma wait_no_sample_latches (args : PttFlowArgs) (seg : List (Option Bool))
    (hforce : args.force_manual = false) (hdummy : args.is_dummy_model = false)
    (hno : ∀ r ∈ seg, r ≠ some true) :
    wait_for_carrier_or_manual args true seg = (true, false) := by
  have hany : seg.any (fun r => r == some true) = false := by
    rw [List.any_eq_false]
    intro r hr
    simpa using hno r hr
  simp [wait_for_carrier_or_manual, hforce, hdummy, hany]

/-- Amended claim C8: in the polling-based acquisition engine
wait_for_carrier_or_manual, if no transmit-start is observed within the
configured adaptive fallback window (no poll returns True), the call
engages manual mode and latches the links ptt_supported flag to False
(first conjunct); once the flag is False every later acquire cycle of the
session engages manual immediately, offering no automatic sensing (second
conjunct); and in a whole session starting optimistic, every cycle from
such a no-carrier segment onward is manual (third conjunct).  What the
original claim adds — that the event-driven sensing path latches to manual
the same way — fails: in run_tuning_loop an event-driven carrier-wait
timeout merely skips the segment and leaves the capability flags untouched
(see the counterexample). -/
theorem ptt_adaptive_fallback_latch :
    (∀ (args : PttFlowArgs) (seg : List (Option Bool)),
        args.force_manual = false → args.is_dummy_model = false →
        (∀ r ∈ seg, r ≠ some true) →
        wait_for_carrier_or_manual args true seg = (true, false)) ∧
    (∀ (args : PttFlowArgs) (segs : List (List (Option Bool))),
        (ptt_session args false segs).1 = segs.map (fun _ => true) ∧
        (ptt_session args false segs).2 = false) ∧
    (∀ (args : PttFlowArgs) (pre : List (List (Option Bool))) (seg : List (Option Bool))
        (post : List (List (Option Bool))),
        args.force_manual = false → args.is_dummy_model = false →
        (∀ r ∈ seg, r ≠ some true) →
        ∀ out ∈ ((ptt_session args true (pre ++ seg :: post)).1.drop pre.length), out = true) := by
  refine ⟨wait_no_sample_latches, ptt_session_flag_false, ?_⟩
  intro args pre seg post hforce hdummy hno
  have key : ∀ (flag out : Bool), out ∈ (ptt_session args flag (seg :: post)).1 → out = true := by
    intro flag out hout
    cases flag with
    | false =>
        rw [(ptt_session_flag_false args (seg :: post)).1] at hout
        obtain ⟨x, hx, hxe⟩ := List.mem_map.mp hout
        exact hxe.symm
    | true =>
        have hr := wait_no_sample_latches args seg hforce hdummy hno
        simp only [ptt_session, hr] at hout
        rcases List.mem_cons.mp hout with rfl | hout'
        · rfl
        · rw [(ptt_session_flag_false args post).1] at hout'
          obtain ⟨x, hx, hxe⟩ := List.mem_map.mp hout'
          exact hxe.symm
  have main : ∀ (pre' : List (List (Option Bool))) (flag out : Bool),
      out ∈ ((ptt_session args flag (pre' ++ seg :: post)).1.drop pre'.length) → out = true := by
    intro pre'
    induction pre' with
    | nil =>
        intro flag out hout
        exact key flag out (by simpa using hout)
    | cons p pre'' ih =>
        intro flag out hout
        simp only [List.cons_append, ptt_session, List.length_cons, List.drop_succ_cons] at hout
        exact ih _ out hout
  intro out hout
  exact main pre true out hout

end PttFlow

namespace PttFlow

/-- The capability flags of a radio client as read by run_tuning_loop
(src/tuning_loop.py lines 212-216). -/
structure TLClientFlags where
  ptt_supported : Bool
  supports_event_ptt : Bool
deriving DecidableEq

/-- The per-segment PTT path decision of run_tuning_loop
(src/tuning_loop.py line 216): event-driven sensing is offered iff
ptt_supported and supports_event_ptt are both set. -/
def tl_is_event (c : TLClientFlags) : Bool := c.ptt_supported && c.supports_event_ptt

/-- The event-driven carrier-wait block of run_tuning_loop
(src/tuning_loop.py lines 217-232) reduced to its effect on the client
flags: when no TX edge arrives before the wait_tx deadline the segment is
skipped (second component true) and the client flags are left untouched;
on a TX edge the segment proceeds.  No branch of this block writes
ptt_supported or supports_event_ptt. -/
def tl_event_segment (c : TLClientFlags) (got_tx : Bool) : TLClientFlags × Bool :=
  if !got_tx then (c, true) else (c, false)

/-- Counterexample to claim C8 as stated: with event-driven sensing active,
a segment in which no transmit-start edge is observed within the configured
window is merely skipped — the client flags are unchanged, ptt_supported is
not marked unsupported, and the next segment still offers automatic
(event-driven) sensing, so the session does not permanently switch to
Manual. -/
theorem event_timeout_no_manual_latch_counterexample :
    tl_is_event ⟨true, true⟩ = true ∧
    tl_event_segment ⟨true, true⟩ false = (⟨true, true⟩, true) ∧
    tl_is_event (tl_event_segment ⟨true, true⟩ false).1 = true ∧
    (tl_event_segment ⟨true, true⟩ false).1.ptt_supported = true := by
  decide

end PttFlow
